import Mathlib

/-!
Verification development for the kinguin_tl marketplace pricing and
sheet-cache system.

Shallow embedding conventions:
- Python floats are modelled as rationals (`ℚ`); Python `round(x, p)`
  (round half to even, to `p` decimal digits) is modelled by
  `roundHalfEven` / `roundTo`.
- Python ints are `ℤ` (or `ℕ` for list indices), strings are `String`.
- Python dicts iterated in insertion order are modelled as association
  lists (`List (κ × α)`).
- `random.uniform a b` is modelled as `a + (b - a) * r` for an arbitrary
  draw `r ∈ [0, 1]`; `random.choice xs` is modelled by an arbitrary index
  reduced modulo the list length.
- Exceptions are modelled with `Except` / `Option`.
-/

namespace KinguinTL

/-- Round half to even on rationals: the semantics of Python `round(x)`. -/
def roundHalfEven (x : ℚ) : ℤ :=
  let f : ℤ := ⌊x⌋
  let frac : ℚ := x - (f : ℚ)
  if frac < 1/2 then f
  else if 1/2 < frac then f + 1
  else if f % 2 = 0 then f else f + 1

/-- Python `round(x, p)`: round to `p` decimal digits (possibly negative). -/
def roundTo (x : ℚ) (p : ℤ) : ℚ :=
  (roundHalfEven (x * 10 ^ p) : ℚ) / 10 ^ p

theorem abs_roundHalfEven_sub_le (x : ℚ) : |(roundHalfEven x : ℚ) - x| ≤ 1/2 := by
  unfold roundHalfEven
  have hfl : ((⌊x⌋ : ℚ)) ≤ x := Int.floor_le x
  have hfu : x < (⌊x⌋ : ℚ) + 1 := Int.lt_floor_add_one x
  by_cases h1 : x - (⌊x⌋ : ℚ) < 1/2
  · simp only [h1, if_true]
    rw [abs_le]; constructor <;> linarith
  · by_cases h2 : 1/2 < x - (⌊x⌋ : ℚ)
    · simp only [h1, if_false, h2, if_true]
      push_cast
      rw [abs_le]; constructor <;> linarith
    · by_cases h3 : ⌊x⌋ % 2 = 0
      · simp only [h1, if_false, h2, if_false, h3, if_true]
        rw [abs_le]; constructor <;> linarith
      · simp only [h1, if_false, h2, if_false, h3, if_true]
        push_cast
        rw [abs_le]; constructor <;> linarith

theorem abs_roundTo_sub_le (x : ℚ) (p : ℤ) :
    |roundTo x p - x| ≤ (10 : ℚ) ^ (-p) / 2 := by
  have hpow : (0 : ℚ) < 10 ^ p := zpow_pos (by norm_num) p
  have h := abs_roundHalfEven_sub_le (x * 10 ^ p)
  have hrw : roundTo x p - x
      = ((roundHalfEven (x * 10 ^ p) : ℚ) - x * 10 ^ p) / 10 ^ p := by
    unfold roundTo
    field_simp
    ring
  rw [hrw, abs_div, abs_of_pos hpow, div_le_iff₀ hpow, zpow_neg]
  calc |(roundHalfEven (x * 10 ^ p) : ℚ) - x * 10 ^ p| ≤ 1/2 := h
    _ = ((10 : ℚ) ^ p)⁻¹ / 2 * 10 ^ p := by
        field_simp

/-! ## Commission algebra (`src/app/utils/price_utils.py`,
`src/app/prices/models.py`) -/

/-- Commission rule as returned by the marketplace API
(`app/kinguin/models.py`). -/
structure CommissionRule where
  id : String
  ruleName : String
  fixedAmount : ℤ
  percentValue : ℤ
deriving DecidableEq

/-- `priceiwtr_to_price` from `app/utils/price_utils.py`:
`int(round(priceiwtr * (100 + percentValue) / 100 + fixedAmount, 0))`. -/
def priceiwtr_to_price (priceiwtr : ℤ) (commission_rule : CommissionRule) : ℤ :=
  roundHalfEven ((priceiwtr : ℚ) * (100 + commission_rule.percentValue) / 100
    + commission_rule.fixedAmount)

/-- `price_to_priceiwtr` from `app/utils/price_utils.py`:
`int(round((price - fixedAmount) * 100 / (100 + percentValue), 0))`. -/
def price_to_priceiwtr (price : ℤ) (commission_rule : CommissionRule) : ℤ :=
  roundHalfEven (((price : ℚ) - commission_rule.fixedAmount) * 100
    / (100 + commission_rule.percentValue))

/-- The example rule used to refute the unrestricted round-trip claim:
`fixedAmount = 0`, `percentValue = 300`. -/
def exRule300 : CommissionRule := ⟨"r", "rule", 0, 300⟩

/-- C2 counterexample: with `percentValue = 300 ≥ 0` the round trip
`price_to_priceiwtr` then `priceiwtr_to_price` maps `2` to `0`, which differs
from `2` by two minor units. -/
theorem commission_round_trip_counterexample :
    priceiwtr_to_price (price_to_priceiwtr 2 exRule300) exRule300 = 0 ∧
      ¬ |priceiwtr_to_price (price_to_priceiwtr 2 exRule300) exRule300 - 2| ≤ 1 := by
  have h1 : price_to_priceiwtr 2 exRule300 = 0 := by
    simp only [price_to_priceiwtr, exRule300, roundHalfEven]
    norm_num
  have h2 : priceiwtr_to_price 0 exRule300 = 0 := by
    simp only [priceiwtr_to_price, exRule300, roundHalfEven]
    norm_num
  rw [h1, h2]
  refine ⟨rfl, by decide⟩

/-- C2 (amended): for every integer price `p` and commission rule with
`0 ≤ percentValue ≤ 100`, converting `p` with `price_to_priceiwtr` and back
with `priceiwtr_to_price` differs from `p` by at most one minor unit. -/
theorem commission_round_trip (p : ℤ) (rule : CommissionRule)
    (h0 : 0 ≤ rule.percentValue) (h100 : rule.percentValue ≤ 100) :
    |priceiwtr_to_price (price_to_priceiwtr p rule) rule - p| ≤ 1 := by
  obtain ⟨i, n, f, c⟩ := rule
  simp only at h0 h100
  have hc0 : (0 : ℚ) ≤ (c : ℚ) := by exact_mod_cast h0
  have hc1 : (c : ℚ) ≤ 100 := by exact_mod_cast h100
  have hden : (0 : ℚ) < 100 + (c : ℚ) := by linarith
  simp only [price_to_priceiwtr, priceiwtr_to_price]
  set u : ℚ := (((p : ℚ) - (f : ℚ)) * 100) / (100 + (c : ℚ)) with hu
  set a : ℤ := roundHalfEven u with ha
  have h1 : |(a : ℚ) - u| ≤ 1/2 := abs_roundHalfEven_sub_le u
  have hid : (a : ℚ) * (100 + (c : ℚ)) / 100 + (f : ℚ)
      = (p : ℚ) + ((a : ℚ) - u) * (100 + (c : ℚ)) / 100 := by
    rw [hu]
    field_simp
    ring
  have hdelta : |((a : ℚ) - u) * (100 + (c : ℚ)) / 100| ≤ 1 := by
    rw [abs_div, abs_mul, abs_of_pos hden, abs_of_pos (by norm_num : (0:ℚ) < 100)]
    rw [div_le_one (by norm_num : (0:ℚ) < 100)]
    calc |(a : ℚ) - u| * (100 + (c : ℚ)) ≤ (1/2) * 200 := by
          apply mul_le_mul h1 (by linarith) (by linarith) (by norm_num)
      _ = 100 := by norm_num
  set b : ℤ := roundHalfEven ((a : ℚ) * (100 + (c : ℚ)) / 100 + (f : ℚ)) with hb
  have h2 : |(b : ℚ) - ((a : ℚ) * (100 + (c : ℚ)) / 100 + (f : ℚ))| ≤ 1/2 :=
    abs_roundHalfEven_sub_le _
  have h3 : |(b : ℚ) - (p : ℚ)| ≤ 3/2 := by
    calc |(b : ℚ) - (p : ℚ)|
        ≤ |(b : ℚ) - ((a : ℚ) * (100 + (c : ℚ)) / 100 + (f : ℚ))|
            + |((a : ℚ) * (100 + (c : ℚ)) / 100 + (f : ℚ)) - (p : ℚ)| :=
          abs_sub_le _ _ _
      _ ≤ 1/2 + 1 := by
          apply add_le_add h2
          rw [hid]
          simpa using hdelta
      _ = 3/2 := by norm_num
  rw [abs_le] at h3 ⊢
  constructor
  · have : (-2 : ℚ) < (b : ℚ) - (p : ℚ) := by linarith
    have h4 : (-2 : ℤ) < b - p := by exact_mod_cast this
    omega
  · have : ((b : ℚ) - (p : ℚ)) < 2 := by linarith
    have h4 : b - p < (2 : ℤ) := by exact_mod_cast this
    omega

/-- Witness for `commission_round_trip` at `p = 150`,
rule `(fixedAmount, percentValue) = (20, 15)`. -/
theorem commission_round_trip_witness :
    |priceiwtr_to_price (price_to_priceiwtr 150 ⟨"r", "rule", 20, 15⟩)
      ⟨"r", "rule", 20, 15⟩ - 150| ≤ 1 :=
  commission_round_trip 150 ⟨"r", "rule", 20, 15⟩ (by decide) (by decide)

/-! ## Pricing flow (`src/app/processes/process.py`) -/

/-- `app/shared/consts.py`: `API_VS_REAL_PRICE_CONVERT_RATE = 100`. -/
def API_VS_REAL_PRICE_CONVERT_RATE : ℚ := 100

/-- The row fields read by the pricing flow in `process.py` (the cached row
carries the sheet-model fields such as `UNIT_STOCK` and
`CHECK_PRODUCT_COMPARE` alongside the externally fetched values). -/
structure FlowRow where
  min_price_value : ℚ
  max_price_value : Option ℚ
  blacklist_value : List String
  stock_value : ℤ
  DONGIAGIAM_MIN : ℚ
  DONGIAGIAM_MAX : ℚ
  DONGIA_LAMTRON : ℤ
  UNIT_STOCK : ℤ
  CHECK_PRODUCT_COMPARE : ℤ
deriving DecidableEq

/-- Competitor offer as scraped (`app/models/crwl_models.py`): seller name,
abstract unit price, raw price amount. -/
structure CrwlOffer where
  sellerName : String
  unitPrice : ℚ
  priceAmount : ℤ
deriving DecidableEq

/-- `APIUnitPrice.to_real_unit_price` then `to_unit_price_per_unit_stock`
from `app/prices/models.py`: `unitPrice / 100 * UNIT_STOCK`. -/
def offerUnitPricePerUnitStock (row : FlowRow) (offer : CrwlOffer) : ℚ :=
  offer.unitPrice / API_VS_REAL_PRICE_CONVERT_RATE * (row.UNIT_STOCK : ℚ)

/-- Python truthiness in `if _product_max_price`: both `None` and `0.0`
count as "no ceiling". -/
def effectiveMax (row : FlowRow) : Option ℚ :=
  match row.max_price_value with
  | none => none
  | some c => if c = 0 then none else some c

/-- The filter applied to each scraped offer in `offers_compare_flow`:
seller not blacklisted and unit price within the configured bounds. -/
def offerIsValid (row : FlowRow) (offer : CrwlOffer) : Bool :=
  decide (offer.sellerName ∉ row.blacklist_value) &&
    (match effectiveMax row with
     | some cmax =>
        decide (row.min_price_value ≤ offerUnitPricePerUnitStock row offer) &&
          decide (offerUnitPricePerUnitStock row offer ≤ cmax)
     | none => decide (row.min_price_value ≤ offerUnitPricePerUnitStock row offer))

/-- One step of the min-search loop: keep the first strict minimum by
`unitPrice` among valid offers. -/
def minOfferStep (row : FlowRow) (best : Option CrwlOffer) (offer : CrwlOffer) :
    Option CrwlOffer :=
  if offerIsValid row offer then
    match best with
    | none => some offer
    | some b => if offer.unitPrice < b.unitPrice then some offer else some b
  else best

/-- The `for offer_id, offer in offers.items()` loop of
`offers_compare_flow`: find the minimal-priced valid offer (first wins ties). -/
def minUnitPriceOffer (row : FlowRow) (offers : List (String × CrwlOffer)) :
    Option CrwlOffer :=
  offers.foldl (fun best p => minOfferStep row best p.2) none

/-- `random.uniform a b` modelled with an explicit draw `r`. -/
def uniform (a b r : ℚ) : ℚ := a + (b - a) * r

/-- `calculate_unit_price_change_by_min_offer` from
`app/processes/process.py` (the unused `product_max` argument of the source
is kept). -/
def calculate_unit_price_change_by_min_offer (row : FlowRow)
    (product_min : ℚ) (_product_max : Option ℚ) (compare : ℚ) (r : ℚ) : ℚ :=
  let new_min_unit_price_random :=
    if compare - row.DONGIAGIAM_MAX ≥ product_min then compare - row.DONGIAGIAM_MAX
    else product_min
  let new_max_unit_price_random :=
    if compare - row.DONGIAGIAM_MIN ≥ product_min then compare - row.DONGIAGIAM_MIN
    else product_min
  roundTo (uniform new_min_unit_price_random new_max_unit_price_random r)
    row.DONGIA_LAMTRON

/-- Which audit note the flow produces. -/
inductive NoteKind
  | updateByMaxPrice
  | updateByMinPrice
  | alreadyBeatsCompetitor (seller : String)
  | comparingSeller (seller : String)
deriving DecidableEq

/-- Decision computed by `offers_compare_flow`: the target real unit price
per unit stock (`none` = no marketplace update issued) and the note kind. -/
structure FlowResult where
  target : Option ℚ
  note : Option NoteKind
deriving DecidableEq

/-- The target-price decision of `offers_compare_flow`
(`app/processes/process.py`, lines 84-323), with the commission/stock
conversions and note formatting abstracted away: `myOfferPrice` is
`my_offer.price.amount`, `r` the uniform draw. -/
def offers_compare_flow (row : FlowRow) (myOfferPrice : ℤ)
    (offers : List (String × CrwlOffer)) (r : ℚ) : FlowResult :=
  match minUnitPriceOffer row offers with
  | none =>
    match effectiveMax row with
    | some cmax =>
        { target := some (roundTo cmax row.DONGIA_LAMTRON),
          note := some .updateByMaxPrice }
    | none =>
        { target := some (roundTo row.min_price_value row.DONGIA_LAMTRON),
          note := some .updateByMinPrice }
  | some best =>
    let compare := offerUnitPricePerUnitStock row best
    if row.CHECK_PRODUCT_COMPARE = 2 ∧ (myOfferPrice : ℚ) < compare then
      { target := none, note := some (.alreadyBeatsCompetitor best.sellerName) }
    else
      { target := some (calculate_unit_price_change_by_min_offer row
          row.min_price_value (effectiveMax row) compare r),
        note := some (.comparingSeller best.sellerName) }

/-- Half of the rounding step used by the flow: `10^(-DONGIA_LAMTRON) / 2`. -/
def roundingSlack (row : FlowRow) : ℚ := (10 : ℚ) ^ (-row.DONGIA_LAMTRON) / 2

theorem minUnitPriceOffer_valid_aux (row : FlowRow)
    (offers : List (String × CrwlOffer)) :
    ∀ acc : Option CrwlOffer, (∀ b, acc = some b → offerIsValid row b = true) →
      ∀ b, offers.foldl (fun best p => minOfferStep row best p.2) acc = some b →
        offerIsValid row b = true := by
  induction offers with
  | nil => intro acc hacc b hb; exact hacc b hb
  | cons o os ih =>
    intro acc hacc b hb
    rw [List.foldl_cons] at hb
    refine ih _ ?_ b hb
    intro b' hb'
    unfold minOfferStep at hb'
    by_cases hv : offerIsValid row o.2
    · rw [if_pos hv] at hb'
      cases hacc' : acc with
      | none => rw [hacc'] at hb'; exact (Option.some_inj.mp hb') ▸ hv
      | some b0 =>
        rw [hacc'] at hb'
        simp only [] at hb'
        by_cases hlt : o.2.unitPrice < b0.unitPrice
        · rw [if_pos hlt] at hb'; exact (Option.some_inj.mp hb') ▸ hv
        · rw [if_neg hlt] at hb'
          exact (Option.some_inj.mp hb') ▸ hacc b0 hacc'
    · rw [if_neg hv] at hb'
      exact hacc b' hb'

/-- Any offer selected by the min-search loop passed the validity filter. -/
theorem minUnitPriceOffer_valid (row : FlowRow)
    (offers : List (String × CrwlOffer)) (best : CrwlOffer)
    (h : minUnitPriceOffer row offers = some best) :
    offerIsValid row best = true :=
  minUnitPriceOffer_valid_aux row offers none (by intro b hb; cases hb) best h

/-- A valid offer's unit price per unit stock lies within the configured
bounds. -/
theorem offerIsValid_bounds (row : FlowRow) (offer : CrwlOffer)
    (h : offerIsValid row offer = true) :
    row.min_price_value ≤ offerUnitPricePerUnitStock row offer ∧
      ∀ cmax, effectiveMax row = some cmax →
        offerUnitPricePerUnitStock row offer ≤ cmax := by
  unfold offerIsValid at h
  rw [Bool.and_eq_true] at h
  obtain ⟨_, h2⟩ := h
  cases hm : effectiveMax row with
  | none =>
    rw [hm] at h2
    exact ⟨of_decide_eq_true h2, by intro c hc; cases hc⟩
  | some cmax =>
    rw [hm] at h2
    rw [Bool.and_eq_true] at h2
    refine ⟨of_decide_eq_true h2.1, ?_⟩
    intro c hc
    cases hc
    exact of_decide_eq_true h2.2

/-- The uniform draw stays between any common bounds of its endpoints. -/
theorem uniform_between (a b r lo hi : ℚ) (hr0 : 0 ≤ r) (hr1 : r ≤ 1)
    (halo : lo ≤ a) (hahi : a ≤ hi) (hblo : lo ≤ b) (hbhi : b ≤ hi) :
    lo ≤ uniform a b r ∧ uniform a b r ≤ hi := by
  unfold uniform
  rcases le_total a b with hab | hab
  · have h1 : 0 ≤ (b - a) * r := mul_nonneg (by linarith) hr0
    have h2 : (b - a) * r ≤ b - a := by nlinarith
    constructor <;> linarith
  · have h1 : (b - a) * r ≤ 0 := mul_nonpos_iff.mpr (Or.inr ⟨by linarith, hr0⟩)
    have h2 : b - a ≤ (b - a) * r := by nlinarith
    constructor <;> linarith

/-- The jittered price of `calculate_unit_price_change_by_min_offer` lies in
`[pmin - slack, compare + slack]` where `slack` is half the rounding step. -/
theorem calculate_unit_price_change_bounds (row : FlowRow)
    (pmin compare r : ℚ) (pmax : Option ℚ)
    (hdmin : 0 ≤ row.DONGIAGIAM_MIN) (hdmax : 0 ≤ row.DONGIAGIAM_MAX)
    (hr0 : 0 ≤ r) (hr1 : r ≤ 1) (hpc : pmin ≤ compare) :
    pmin - roundingSlack row
        ≤ calculate_unit_price_change_by_min_offer row pmin pmax compare r ∧
      calculate_unit_price_change_by_min_offer row pmin pmax compare r
        ≤ compare + roundingSlack row := by
  unfold calculate_unit_price_change_by_min_offer
  set a : ℚ := if compare - row.DONGIAGIAM_MAX ≥ pmin
      then compare - row.DONGIAGIAM_MAX else pmin with hadef
  set b : ℚ := if compare - row.DONGIAGIAM_MIN ≥ pmin
      then compare - row.DONGIAGIAM_MIN else pmin with hbdef
  have ha : pmin ≤ a ∧ a ≤ compare := by
    rw [hadef]; split
    · constructor <;> linarith
    · constructor <;> linarith
  have hb : pmin ≤ b ∧ b ≤ compare := by
    rw [hbdef]; split
    · constructor <;> linarith
    · constructor <;> linarith
  obtain ⟨hu1, hu2⟩ :=
    uniform_between a b r pmin compare hr0 hr1 ha.1 ha.2 hb.1 hb.2
  have hround := abs_roundTo_sub_le (uniform a b r) row.DONGIA_LAMTRON
  rw [abs_le] at hround
  unfold roundingSlack
  constructor <;> linarith [hround.1, hround.2]

/-- C1 (amended): for nonnegative jitter decrements, a draw in `[0, 1]` and a
consistent floor/ceiling, any target the flow issues lies within `[F, C]`
widened by half the rounding step `10^(-DONGIA_LAMTRON) / 2` (and within
`[F - slack, ∞)` when no ceiling is set). -/
theorem offers_compare_flow_price_bound (row : FlowRow) (myOfferPrice : ℤ)
    (offers : List (String × CrwlOffer)) (r : ℚ) (t : ℚ)
    (hdmin : 0 ≤ row.DONGIAGIAM_MIN) (hdmax : 0 ≤ row.DONGIAGIAM_MAX)
    (hr0 : 0 ≤ r) (hr1 : r ≤ 1)
    (hFC : ∀ cmax, effectiveMax row = some cmax → row.min_price_value ≤ cmax)
    (ht : (offers_compare_flow row myOfferPrice offers r).target = some t) :
    row.min_price_value - roundingSlack row ≤ t ∧
      ∀ cmax, effectiveMax row = some cmax → t ≤ cmax + roundingSlack row := by
  unfold offers_compare_flow at ht
  cases hbest : minUnitPriceOffer row offers with
  | none =>
    rw [hbest] at ht
    cases hm : effectiveMax row with
    | none =>
      rw [hm] at ht
      simp only [Option.some_inj] at ht
      subst ht
      have hrr := abs_roundTo_sub_le row.min_price_value row.DONGIA_LAMTRON
      rw [abs_le] at hrr
      unfold roundingSlack
      exact ⟨by linarith [hrr.1, hrr.2], by intro c hc; cases hc⟩
    | some cmax =>
      rw [hm] at ht
      simp only [Option.some_inj] at ht
      subst ht
      have hrr := abs_roundTo_sub_le cmax row.DONGIA_LAMTRON
      rw [abs_le] at hrr
      have hfc := hFC cmax hm
      unfold roundingSlack at *
      constructor
      · linarith [hrr.1, hrr.2]
      · intro c hc
        cases hc
        linarith [hrr.1, hrr.2]
  | some best =>
    rw [hbest] at ht
    simp only [] at ht
    by_cases hmode : row.CHECK_PRODUCT_COMPARE = 2 ∧
        (myOfferPrice : ℚ) < offerUnitPricePerUnitStock row best
    · rw [if_pos hmode] at ht
      cases ht
    · rw [if_neg hmode] at ht
      simp only [Option.some_inj] at ht
      subst ht
      have hvalid := minUnitPriceOffer_valid row offers best hbest
      obtain ⟨hlo, hhi⟩ := offerIsValid_bounds row best hvalid
      obtain ⟨hc1, hc2⟩ := calculate_unit_price_change_bounds row
        row.min_price_value (offerUnitPricePerUnitStock row best) r
        (effectiveMax row) hdmin hdmax hr0 hr1 hlo
      refine ⟨hc1, ?_⟩
      intro c hc
      have := hhi c hc
      linarith

/-- Row used to refute the strict price-bound claim: floor `10.004`, no
ceiling, zero jitter, rounding to 2 decimals. -/
def exRowC1 : FlowRow :=
  { min_price_value := 2501/250, max_price_value := none, blacklist_value := [],
    stock_value := 1, DONGIAGIAM_MIN := 0, DONGIAGIAM_MAX := 0,
    DONGIA_LAMTRON := 2, UNIT_STOCK := 1, CHECK_PRODUCT_COMPARE := 1 }

/-- Competitor offer at unit price per unit stock `10.004`, exactly on the
floor. -/
def exOfferC1 : CrwlOffer :=
  { sellerName := "s", unitPrice := 5002/5, priceAmount := 1001 }

/-- C1 counterexample: with floor `10.004`, a valid competitor at `10.004`,
zero jitter and rounding precision 2, the flow issues target `10.00`, which
is strictly below the floor. -/
theorem offers_compare_flow_price_bound_counterexample :
    (offers_compare_flow exRowC1 0 [("o1", exOfferC1)] 0).target = some 10 ∧
      (10 : ℚ) < exRowC1.min_price_value := by
  constructor
  · have hval : offerIsValid exRowC1 exOfferC1 = true := by
      simp only [offerIsValid, effectiveMax, offerUnitPricePerUnitStock,
        API_VS_REAL_PRICE_CONVERT_RATE, exRowC1, exOfferC1]
      norm_num
    have hbest : minUnitPriceOffer exRowC1 [("o1", exOfferC1)] = some exOfferC1 := by
      simp only [minUnitPriceOffer, List.foldl, minOfferStep, hval, if_true]
    unfold offers_compare_flow
    rw [hbest]
    dsimp only []
    rw [if_neg (by simp [exRowC1])]
    simp only [calculate_unit_price_change_by_min_offer, uniform, effectiveMax,
      offerUnitPricePerUnitStock, API_VS_REAL_PRICE_CONVERT_RATE,
      roundTo, roundHalfEven, exRowC1, exOfferC1, Option.some_inj]
    norm_num
  · norm_num [exRowC1]

/-- Witness for `offers_compare_flow_price_bound`: floor `10`, no offers,
no ceiling — the flow issues `10` and the bound holds. -/
theorem offers_compare_flow_price_bound_witness :
    (2501/250 : ℚ) - roundingSlack exRowC1 ≤ 10 ∧
      ∀ cmax, effectiveMax exRowC1 = some cmax →
        (10 : ℚ) ≤ cmax + roundingSlack exRowC1 := by
  have h := offers_compare_flow_price_bound exRowC1 0 [("o1", exOfferC1)] 0 10
    (by norm_num [exRowC1]) (by norm_num [exRowC1]) (by norm_num) (by norm_num)
    (by intro c hc; simp [effectiveMax, exRowC1] at hc)
    offers_compare_flow_price_bound_counterexample.1
  simpa [exRowC1] using h

/-- C7: when a best valid competitor exists, the comparison mode is 2 and the
current offer price is strictly below the competitor's unit price per unit
stock, the flow issues no update and records the
"already beats competitor" note. -/
theorem mode2_already_beats_no_update (row : FlowRow) (myOfferPrice : ℤ)
    (offers : List (String × CrwlOffer)) (r : ℚ) (best : CrwlOffer)
    (hbest : minUnitPriceOffer row offers = some best)
    (hmode : row.CHECK_PRODUCT_COMPARE = 2)
    (hlt : (myOfferPrice : ℚ) < offerUnitPricePerUnitStock row best) :
    offers_compare_flow row myOfferPrice offers r
      = { target := none,
          note := some (.alreadyBeatsCompetitor best.sellerName) } := by
  unfold offers_compare_flow
  rw [hbest]
  dsimp only []
  rw [if_pos ⟨hmode, hlt⟩]

/-- Mode-2 row: floor `10`, comparison mode 2. -/
def exRowC7 : FlowRow :=
  { min_price_value := 10, max_price_value := none, blacklist_value := [],
    stock_value := 1, DONGIAGIAM_MIN := 1/2, DONGIAGIAM_MAX := 1,
    DONGIA_LAMTRON := 2, UNIT_STOCK := 1, CHECK_PRODUCT_COMPARE := 2 }

/-- Competitor at unit price per unit stock `15`. -/
def exOfferC7 : CrwlOffer :=
  { sellerName := "t", unitPrice := 1500, priceAmount := 1500 }

/-- Witness for `mode2_already_beats_no_update`: current price `12` beats the
competitor's `15`, so no update is issued. -/
theorem mode2_already_beats_no_update_witness :
    offers_compare_flow exRowC7 12 [("o", exOfferC7)] 0
      = { target := none, note := some (.alreadyBeatsCompetitor "t") } := by
  have hval : offerIsValid exRowC7 exOfferC7 = true := by
    simp only [offerIsValid, effectiveMax, offerUnitPricePerUnitStock,
      API_VS_REAL_PRICE_CONVERT_RATE, exRowC7, exOfferC7]
    norm_num
  have hbest : minUnitPriceOffer exRowC7 [("o", exOfferC7)] = some exOfferC7 := by
    simp only [minUnitPriceOffer, List.foldl, minOfferStep, hval, if_true]
  have h := mode2_already_beats_no_update exRowC7 12 [("o", exOfferC7)] 0 exOfferC7
    hbest (by norm_num [exRowC7])
    (by norm_num [offerUnitPricePerUnitStock, API_VS_REAL_PRICE_CONVERT_RATE,
      exRowC7, exOfferC7])
  simpa [exOfferC7] using h

/-! ## CacheSheet grid (`src/app/gsheet_cache/sheet.py`)

Cell addresses are modelled after A1 parsing (`a1_to_rowcol` minus one):
0-based `(row, col)` pairs. Ranges are modelled as the parsed `GridRange`
with optional 0-based half-open bounds (`app/gsheet_cache/schemas.py`). -/

/-- The cached sheet data: `list[list[str]]`. -/
abbrev Grid := List (List String)

/-- The only exception the grid accessors can encounter. -/
inductive GridError
  | indexError
deriving DecidableEq

/-- Raw cell access `data[row][col]`, with `IndexError` made explicit. -/
def cellAt (data : Grid) (row col : ℕ) : Except GridError String :=
  match data[row]? with
  | none => .error .indexError
  | some r =>
    match r[col]? with
    | none => .error .indexError
    | some v => .ok v

/-- `CacheSheet.get_value`: catches `IndexError`, maps blank to `None`. -/
def get_value (data : Grid) (row col : ℕ) : Option String :=
  match cellAt data row col with
  | .error _ => none
  | .ok v => if v = "" then none else some v

/-- `CacheSheet.__ensure_cell_exists`: append empty rows until `row` exists,
then blank-pad that row until `col` exists. -/
def ensure_cell_exists (data : Grid) (row col : ℕ) : Grid :=
  let d := data ++ List.replicate (row + 1 - data.length) ([] : List String)
  d.set row (d.getD row [] ++ List.replicate (col + 1 - (d.getD row []).length) "")

/-- `CacheSheet.update_value`: ensure the cell exists, then assign. -/
def update_value (data : Grid) (row col : ℕ) (value : String) : Grid :=
  let d := ensure_cell_exists data row col
  d.set row ((d.getD row []).set col value)

/-- Parsed A1 range (`GridRange` in `app/gsheet_cache/schemas.py`):
0-based half-open bounds, `none` meaning unbounded. -/
structure GridRange where
  startRowIndex : Option ℕ
  endRowIndex : Option ℕ
  startColumnIndex : Option ℕ
  endColumnIndex : Option ℕ
deriving DecidableEq

/-- Python `x or d` on an optional integer: `None` and `0` both fall back. -/
def pyOr (x : Option ℕ) (d : ℕ) : ℕ :=
  match x with
  | none => d
  | some n => if n = 0 then d else n

/-- `CacheSheet.get_range`: iterate the resolved bounds, catching
`IndexError` per cell and mapping blanks to `None`. -/
def get_range (data : Grid) (gr : GridRange) : List (List (Option String)) :=
  let r0 := pyOr gr.startRowIndex 0
  let r1 := pyOr gr.endRowIndex data.length
  (List.range' r0 (r1 - r0)).map fun r =>
    let c0 := pyOr gr.startColumnIndex 0
    let c1 := pyOr gr.endColumnIndex
      (if r < data.length then (data.getD r []).length else 0)
    (List.range' c0 (c1 - c0)).map fun c =>
      match cellAt data r c with
      | .error _ => none
      | .ok v => if v = "" then none else some v

theorem ensure_cell_exists_spec (data : Grid) (row col : ℕ) :
    ∃ r, (ensure_cell_exists data row col)[row]? = some r ∧ col < r.length := by
  simp only [ensure_cell_exists]
  have hlen : row < (data ++ List.replicate (row + 1 - data.length)
      ([] : List String)).length := by
    simp only [List.length_append, List.length_replicate]
    omega
  refine ⟨_, List.getElem?_set_eq_of_lt _ hlen, ?_⟩
  simp only [List.length_append, List.length_replicate]
  omega

/-- C4 counterexample: writing the empty string then reading it back yields
`none`, not the written value. -/
theorem read_your_write_counterexample :
    get_value (update_value [] 0 0 "") 0 0 = none ∧
      (none : Option String) ≠ some "" := by
  constructor
  · rfl
  · intro h
    cases h

/-- C4 (amended): after `update_value (row, col) v` with `v` non-blank and no
flush, `get_value (row, col)` returns `v`; a blank `v` reads back as `none`. -/
theorem read_your_write (data : Grid) (row col : ℕ) (v : String)
    (hv : v ≠ "") :
    get_value (update_value data row col v) row col = some v := by
  obtain ⟨r, hr, hcol⟩ := ensure_cell_exists_spec data row col
  have hrowlt : row < (ensure_cell_exists data row col).length := by
    by_contra hc
    rw [not_lt, ← List.getElem?_eq_none_iff] at hc
    rw [hc] at hr
    cases hr
  have hgetD : (ensure_cell_exists data row col).getD row [] = r := by
    rw [List.getD_eq_getElem?_getD, hr]
    rfl
  have hcell : cellAt (update_value data row col v) row col = .ok v := by
    simp only [cellAt, update_value]
    rw [List.getElem?_set_eq_of_lt _ hrowlt]
    dsimp only
    rw [hgetD, List.getElem?_set_eq_of_lt _ hcol]
  unfold get_value
  rw [hcell]
  simp [hv]

/-- Witness for `read_your_write` at a concrete grid and value. -/
theorem read_your_write_witness :
    get_value (update_value [["a"], []] 2 1 "x") 2 1 = some "x" :=
  read_your_write [["a"], []] 2 1 "x" (by decide)

/-- C9: `get_value` and `get_range` are total (every `IndexError` is caught):
`get_value` yields `none` exactly on out-of-bounds or blank cells, the range
result always has the resolved number of rows, and every produced cell equals
`get_value` at its source coordinates (hence `none` out of range). -/
theorem grid_safety (data : Grid) (row col : ℕ) (gr : GridRange) :
    (get_value data row col = none ↔
      (cellAt data row col = .error .indexError ∨ cellAt data row col = .ok "")) ∧
    (get_range data gr).length
        = pyOr gr.endRowIndex data.length - pyOr gr.startRowIndex 0 ∧
    ∀ i j cell, ((get_range data gr).getD i [])[j]? = some cell →
      cell = get_value data (pyOr gr.startRowIndex 0 + i)
        (pyOr gr.startColumnIndex 0 + j) := by
  refine ⟨?_, ?_, ?_⟩
  · unfold get_value
    cases h : cellAt data row col with
    | error e =>
      cases e
      simp [h]
    | ok v =>
      by_cases hv : v = ""
      · subst hv
        simp [h]
      · simp [h, hv]
  · unfold get_range
    simp
  · intro i j cell h
    simp only [get_range] at h
    by_cases hi : i < pyOr gr.endRowIndex data.length - pyOr gr.startRowIndex 0
    · rw [List.getD_eq_getElem?_getD, List.getElem?_map,
        List.getElem?_range' (pyOr gr.startRowIndex 0) 1 hi] at h
      simp only [Option.map_some', Option.getD_some, one_mul] at h
      by_cases hj : j < pyOr gr.endColumnIndex
          (if pyOr gr.startRowIndex 0 + i < data.length
            then (data.getD (pyOr gr.startRowIndex 0 + i) []).length else 0)
          - pyOr gr.startColumnIndex 0
      · rw [List.getElem?_map,
          List.getElem?_range' (pyOr gr.startColumnIndex 0) 1 hj] at h
        simp only [Option.map_some', Option.some_inj, one_mul] at h
        rw [← h]
        rfl
      · rw [List.getElem?_map] at h
        rw [(by rw [List.getElem?_eq_none_iff]; simpa using hj :
          (List.range' (pyOr gr.startColumnIndex 0) (pyOr gr.endColumnIndex
            (if pyOr gr.startRowIndex 0 + i < data.length
              then (data.getD (pyOr gr.startRowIndex 0 + i) []).length else 0)
            - pyOr gr.startColumnIndex 0))[j]? = none)] at h
        cases h
    · rw [List.getD_eq_getElem?_getD, List.getElem?_map] at h
      rw [(by rw [List.getElem?_eq_none_iff]; simpa using hi :
        (List.range' (pyOr gr.startRowIndex 0) (pyOr gr.endRowIndex data.length
          - pyOr gr.startRowIndex 0))[i]? = none)] at h
      simp at h

/-! ## Retry with key rotation
(`CacheSheet.__is_rate_limit_error` / `CacheSheet.__execute_with_retry`) -/

/-- gspread `APIError`: every instance is constructed from an HTTP response,
so the `response is not None` guard in `__is_rate_limit_error` always
passes; the error carries a status code and its text. -/
structure APIError where
  statusCode : ℕ
  text : String
deriving DecidableEq

/-- The keyword list of `__is_rate_limit_error`. -/
def rate_limit_keywords : List String :=
  ["rate limit", "quota", "too many requests", "user rate limit"]

/-- Python `needle in hay` on strings: contiguous substring test. -/
def strContains (hay needle : String) : Bool :=
  hay.toList.tails.any fun t => needle.toList.isPrefixOf t

/-- `__is_rate_limit_error`: status 429 or 403, else a rate-limit keyword in
the lowercased error text. -/
def is_rate_limit_error (e : APIError) : Bool :=
  if e.statusCode = 429 ∨ e.statusCode = 403 then true
  else rate_limit_keywords.any fun k => strContains e.text.toLower k

/-- Observable side effects of the retry loop. -/
inductive RetryEvent
  | rotateKey
  | sleep (seconds : ℕ)
deriving DecidableEq

/-- `__execute_with_retry` from loop index `attempt` on: `op` gives each
attempt's outcome, `trace` accumulates rotation/backoff events. The final
`none` models Python falling off the loop without any attempt
(only possible when `max_retries ≤ attempt`, e.g. `max_retries = 0`). -/
def execute_with_retry_from {α : Type} (max_retries : ℕ)
    (op : ℕ → Except APIError α) (attempt : ℕ) (trace : List RetryEvent) :
    List RetryEvent × Option (Except APIError α) :=
  if attempt < max_retries then
    match op attempt with
    | .ok v => (trace, some (.ok v))
    | .error e =>
      if is_rate_limit_error e then
        if attempt < max_retries - 1 then
          execute_with_retry_from max_retries op (attempt + 1)
            (trace ++ [.rotateKey, .sleep (2 ^ attempt)])
        else (trace, some (.error e))
      else (trace, some (.error e))
  else (trace, none)
termination_by max_retries - attempt
decreasing_by omega

/-- `__execute_with_retry` as called: starts at attempt 0 with no events. -/
def execute_with_retry {α : Type} (max_retries : ℕ)
    (op : ℕ → Except APIError α) : List RetryEvent × Option (Except APIError α) :=
  execute_with_retry_from max_retries op 0 []

/-- C3: on an attempt that errors, (1) a rate-limit-classified error with
attempts remaining appends a key rotation and a `2^attempt`-second sleep and
retries at `attempt + 1`; (2) a rate-limit error on the last attempt
propagates the error with no further events; (3) a non-rate-limit error
propagates immediately with no rotation and no retry. -/
theorem execute_with_retry_classification {α : Type} (max_retries : ℕ)
    (op : ℕ → Except APIError α) (attempt : ℕ) (trace : List RetryEvent)
    (e : APIError) (herr : op attempt = .error e) (hlt : attempt < max_retries) :
    (is_rate_limit_error e = true → attempt < max_retries - 1 →
      execute_with_retry_from max_retries op attempt trace
        = execute_with_retry_from max_retries op (attempt + 1)
            (trace ++ [RetryEvent.rotateKey, RetryEvent.sleep (2 ^ attempt)])) ∧
    (is_rate_limit_error e = true → ¬ attempt < max_retries - 1 →
      execute_with_retry_from max_retries op attempt trace
        = (trace, some (.error e))) ∧
    (is_rate_limit_error e = false →
      execute_with_retry_from max_retries op attempt trace
        = (trace, some (.error e))) := by
  refine ⟨?_, ?_, ?_⟩
  · intro hrl hrem
    rw [execute_with_retry_from, if_pos hlt, herr]
    simp only [hrl, if_true, hrem]
  · intro hrl hrem
    rw [execute_with_retry_from, if_pos hlt, herr]
    simp only [hrl, if_true, hrem, if_false]
  · intro hrl
    rw [execute_with_retry_from, if_pos hlt, herr]
    simp only [hrl, Bool.false_eq_true, if_false]

/-- Witness for `execute_with_retry_classification`: a 429 error on attempt 0
of 3 rotates, sleeps 1 second and retries at attempt 1. -/
theorem execute_with_retry_classification_witness :
    execute_with_retry_from 3
        (fun _ => (Except.error ⟨429, "boom"⟩ : Except APIError ℕ)) 0 []
      = execute_with_retry_from 3 (fun _ => Except.error ⟨429, "boom"⟩) 1
          [RetryEvent.rotateKey, RetryEvent.sleep 1] := by
  have h := execute_with_retry_classification 3
    (fun _ => (Except.error ⟨429, "boom"⟩ : Except APIError ℕ)) 0 []
    ⟨429, "boom"⟩ rfl (by norm_num)
  have h1 := h.1 (by rw [is_rate_limit_error]; simp) (by norm_num)
  simpa using h1

/-! ## Credential pool
(`CacheSheet.__select_random_key` / `CacheSheet.__rotate_key`) -/

/-- The key-rotation state of a `CacheSheet`: number of loaded service
account keys, set of failed key indices, current key index. -/
structure KeyState where
  numKeys : ℕ
  failedKeys : Finset ℕ
  currentKeyIndex : Option ℕ
deriving DecidableEq

/-- `__select_random_key` with the `random.choice` draw modelled by `r`:
choose among non-failed indices; when every key has failed, clear the failed
set and choose among all of them. -/
def select_random_key (s : KeyState) (r : ℕ) : KeyState :=
  let available := (List.range s.numKeys).filter fun i => i ∉ s.failedKeys
  if available = [] then
    let available2 := List.range s.numKeys
    { s with failedKeys := ∅, currentKeyIndex := available2[r % available2.length]? }
  else
    { s with currentKeyIndex := available[r % available.length]? }

/-- `__rotate_key`: mark the current key failed, then select a new one. -/
def rotate_key (s : KeyState) (r : ℕ) : KeyState :=
  let s1 := match s.currentKeyIndex with
    | some i => { s with failedKeys := insert i s.failedKeys }
    | none => s
  select_random_key s1 r

theorem select_random_key_spec (s : KeyState) (r : ℕ) (hK : 1 ≤ s.numKeys) :
    ∃ i, (select_random_key s r).currentKeyIndex = some i ∧ i < s.numKeys := by
  simp only [select_random_key]
  set available := (List.range s.numKeys).filter (fun i => i ∉ s.failedKeys)
    with havl
  by_cases hav : available = []
  · rw [if_pos hav]
    dsimp only
    refine ⟨r % s.numKeys, ?_, Nat.mod_lt _ (by omega)⟩
    rw [List.length_range]
    exact List.getElem?_range (Nat.mod_lt _ (by omega))
  · rw [if_neg hav]
    dsimp only
    have hlen : 0 < available.length := List.length_pos.mpr hav
    have hmod : r % available.length < available.length := Nat.mod_lt _ hlen
    refine ⟨available.get ⟨r % available.length, hmod⟩, ?_, ?_⟩
    · simp [List.getElem?_eq_getElem hmod]
    · have hmem : available.get ⟨r % available.length, hmod⟩ ∈ available :=
        List.get_mem _ _ hmod
      have hmem' : available.get ⟨r % available.length, hmod⟩
          ∈ (List.range s.numKeys).filter (fun i => i ∉ s.failedKeys) := hmem
      have hf := List.mem_filter.mp hmem'
      exact List.mem_range.mp hf.1

/-- C8: for a pool of `K ≥ 1` keys in any state — in particular after
rotations have marked every key failed — the next selection succeeds and
yields a key index below `K`, and so does a further `rotate`; the pool is
never locked out. -/
theorem credential_self_healing (s : KeyState) (r r' : ℕ) (hK : 1 ≤ s.numKeys) :
    (∃ i, (select_random_key s r).currentKeyIndex = some i ∧ i < s.numKeys) ∧
    (∃ j, (rotate_key s r').currentKeyIndex = some j ∧ j < s.numKeys) := by
  refine ⟨select_random_key_spec s r hK, ?_⟩
  unfold rotate_key
  cases hc : s.currentKeyIndex with
  | none => exact select_random_key_spec s r' hK
  | some i => exact select_random_key_spec _ r' hK

/-- Witness for `credential_self_healing`: three keys, all marked failed —
selection still returns a key. -/
theorem credential_self_healing_witness :
    (∃ i, (select_random_key ⟨3, {0, 1, 2}, some 2⟩ 5).currentKeyIndex = some i
        ∧ i < 3) ∧
    (∃ j, (rotate_key ⟨3, {0, 1, 2}, some 2⟩ 7).currentKeyIndex = some j
        ∧ j < 3) :=
  credential_self_healing ⟨3, {0, 1, 2}, some 2⟩ 5 7 (by norm_num)

/-! ## DataCache (`src/app/service/data_cache.py`) and the worker loop
(`src/main.py`)

Python dicts are modelled as insertion-ordered association lists; the
claims concern the audit fields (`Note`, `Last_update`), so rows are
modelled by those two fields. -/

/-- The mutable audit fields of a `CachedRow`. -/
structure CachedRowData where
  Note : Option String
  Last_update : Option String
deriving DecidableEq

/-- One entry of `DataCache.pending_updates`: `{"Note": ..., "Last_update": ...}`. -/
structure PendingUpdate where
  Note : Option String
  Last_update : Option String
deriving DecidableEq

/-- The `DataCache` state the claims concern: loaded rows and the
pending-update queue. -/
structure DataCacheState where
  data : List (ℕ × CachedRowData)
  pending_updates : List (ℕ × PendingUpdate)
deriving DecidableEq

/-- `k in d` for a dict modelled as an assoc list. -/
def hasKey {α : Type} (l : List (ℕ × α)) (k : ℕ) : Bool :=
  l.any fun p => p.1 = k

/-- Dict assignment `d[k] = v`: overwrite in place, else append. -/
def dictSet {α : Type} (l : List (ℕ × α)) (k : ℕ) (v : α) : List (ℕ × α) :=
  if hasKey l k then l.map (fun p => if p.1 = k then (k, v) else p)
  else l ++ [(k, v)]

/-- `DataCache.update_fields`: only an index present in the loaded data has
its audit fields set and a pending update recorded; a missing index is a
silent no-op. -/
def update_fields (c : DataCacheState) (index : ℕ)
    (note last_update : Option String) : DataCacheState :=
  if hasKey c.data index then
    { data := c.data.map fun p =>
        if p.1 = index then (index, ⟨note, last_update⟩) else p,
      pending_updates := dictSet c.pending_updates index ⟨note, last_update⟩ }
  else c

/-- `DataCache.flush_updates_to_sheet`: snapshot and clear the queue, attempt
the batch write, and on failure merge the snapshot back, skipping indices
that acquired a newer pending update in the meantime. `during` lists pending
entries recorded while the API call was in flight (their `data` effects are
not tracked here); `apiOk` is whether the batch write succeeded. -/
def flush_updates_to_sheet (c : DataCacheState)
    (during : List (ℕ × PendingUpdate)) (apiOk : Bool) : DataCacheState :=
  if c.pending_updates = [] then c
  else
    let updates_to_flush := c.pending_updates
    let p1 := during.foldl (fun acc du => dictSet acc du.1 du.2) []
    if apiOk then { c with pending_updates := p1 }
    else
      let restored := updates_to_flush.foldl
        (fun acc iu => if hasKey acc iu.1 then acc else acc ++ [iu]) p1
      { c with pending_updates := restored }

/-- Outcome of processing one row end-to-end, with the external
scraping/marketplace effects abstracted: pydantic validation error, any
other exception, or success with the audit note computed by the pricing
flow. -/
inductive RowOutcome
  | validationFailure (msg : String)
  | processFailure (msg : String)
  | success (note : String)
deriving DecidableEq

/-- `update_error_to_cache` (main.py): record `"<ts>: <msg>"` as the note. -/
def update_error_to_cache (c : DataCacheState) (index : ℕ)
    (msg ts : String) : DataCacheState :=
  update_fields c index (some (ts ++ ": " ++ msg)) (some ts)

/-- One iteration of `worker` (main.py) for `index`: a cache miss is skipped
with no write; failures record an error note; success records the flow's
note through `update_cache_note` — guarded by `if note_message:` in the
flows, hence skipped when the computed note is empty. -/
def worker_step (c : DataCacheState) (index : ℕ) (outcome : RowOutcome)
    (ts : String) : DataCacheState :=
  match List.lookup index c.data with
  | none => c
  | some _ =>
    match outcome with
    | .validationFailure msg => update_error_to_cache c index msg ts
    | .processFailure msg => update_error_to_cache c index msg ts
    | .success note =>
        if note = "" then c else update_fields c index (some note) (some ts)

/-- One batch of `main`: the workers consume the batch's indices (in the
interleaved order the queue hands them out) before the synchronous flush. -/
def run_batch (c : DataCacheState) (batch : List ℕ)
    (outcome : ℕ → RowOutcome) (ts : String) : DataCacheState :=
  batch.foldl (fun acc i => worker_step acc i (outcome i) ts) c

theorem hasKey_append {α : Type} (l m : List (ℕ × α)) (k : ℕ) :
    hasKey (l ++ m) k = (hasKey l k || hasKey m k) := by
  simp [hasKey, List.any_append]

theorem hasKey_false_lookup {α : Type} (l : List (ℕ × α)) (k : ℕ)
    (h : hasKey l k = false) : List.lookup k l = none := by
  induction l with
  | nil => rfl
  | cons x xs ih =>
    obtain ⟨a, b⟩ := x
    simp only [hasKey, List.any_cons, Bool.or_eq_false_iff, decide_eq_false_iff_not]
      at h
    rw [List.lookup_cons]
    have hba : (k == a) = false := by
      simp only [beq_eq_false_iff_ne, ne_eq]
      intro hk
      exact h.1 hk.symm
    rw [hba]
    exact ih h.2

theorem hasKey_true_lookup {α : Type} (l : List (ℕ × α)) (k : ℕ)
    (h : hasKey l k = true) : (List.lookup k l).isSome = true := by
  induction l with
  | nil => cases h
  | cons x xs ih =>
    obtain ⟨a, b⟩ := x
    rw [List.lookup_cons]
    by_cases hka : k = a
    · simp [hka]
    · have hba : (k == a) = false := by
        simp only [beq_eq_false_iff_ne, ne_eq]
        exact hka
      rw [hba]
      apply ih
      simp only [hasKey, List.any_cons, Bool.or_eq_true, decide_eq_true_eq] at h
      rcases h with h | h
      · exact absurd h.symm hka
      · exact h

theorem lookup_map_update_self {α : Type} (l : List (ℕ × α)) (i : ℕ) (v : α)
    (h : hasKey l i = true) :
    List.lookup i (l.map fun p => if p.1 = i then (i, v) else p) = some v := by
  induction l with
  | nil => cases h
  | cons x xs ih =>
    obtain ⟨a, b⟩ := x
    simp only [List.map_cons]
    by_cases ha : a = i
    · rw [if_pos (by simpa using ha), List.lookup_cons]
      simp
    · rw [if_neg (by simpa using ha), List.lookup_cons]
      have hba : (i == a) = false := by
        simp only [beq_eq_false_iff_ne, ne_eq]
        intro hk
        exact ha hk.symm
      rw [hba]
      apply ih
      simp only [hasKey, List.any_cons, Bool.or_eq_true, decide_eq_true_eq] at h
      rcases h with h | h
      · exact absurd h ha
      · exact h

theorem lookup_map_update_other {α : Type} (l : List (ℕ × α)) (i j : ℕ) (v : α)
    (hne : j ≠ i) :
    List.lookup j (l.map fun p => if p.1 = i then (i, v) else p)
      = List.lookup j l := by
  induction l with
  | nil => rfl
  | cons x xs ih =>
    obtain ⟨a, b⟩ := x
    simp only [List.map_cons]
    by_cases ha : a = i
    · subst ha
      rw [if_pos rfl, List.lookup_cons, List.lookup_cons]
      have hba : (j == a) = false := by
        simp only [beq_eq_false_iff_ne, ne_eq]
        exact hne
      rw [hba]
      dsimp only
      exact ih
    · rw [if_neg (by simpa using ha), List.lookup_cons, List.lookup_cons]
      cases hja : (j == a) with
      | true => rfl
      | false => rw [ih]

theorem restore_mono (l : List (ℕ × PendingUpdate)) :
    ∀ acc i, hasKey acc i = true →
      hasKey (l.foldl
        (fun acc iu => if hasKey acc iu.1 then acc else acc ++ [iu]) acc) i
        = true := by
  induction l with
  | nil => intro acc i h; exact h
  | cons x xs ih =>
    intro acc i h
    rw [List.foldl_cons]
    apply ih
    by_cases hx : hasKey acc x.1 = true
    · rw [if_pos hx]; exact h
    · rw [if_neg hx, hasKey_append, h]; rfl

theorem restore_of_mem (l : List (ℕ × PendingUpdate)) :
    ∀ acc i u, (i, u) ∈ l →
      hasKey (l.foldl
        (fun acc iu => if hasKey acc iu.1 then acc else acc ++ [iu]) acc) i
        = true := by
  induction l with
  | nil => intro acc i u h; cases h
  | cons x xs ih =>
    intro acc i u h
    rw [List.foldl_cons]
    rcases List.mem_cons.mp h with heq | hmem
    · apply restore_mono
      by_cases hx : hasKey acc x.1 = true
      · rw [if_pos hx, ← heq] at *
        exact hx
      · rw [if_neg hx, hasKey_append, ← heq]
        simp [hasKey]
    · exact ih _ i u hmem

theorem restore_append (l : List (ℕ × PendingUpdate)) :
    ∀ acc, (∀ p ∈ l, hasKey acc p.1 = false) → (l.map Prod.fst).Nodup →
      l.foldl (fun acc iu => if hasKey acc iu.1 then acc else acc ++ [iu]) acc
        = acc ++ l := by
  induction l with
  | nil => intro acc _ _; simp
  | cons x xs ih =>
    intro acc hfree hnodup
    rw [List.foldl_cons,
      if_neg (by rw [hfree x (List.mem_cons_self x xs)]; exact Bool.false_ne_true)]
    rw [List.map_cons, List.nodup_cons] at hnodup
    rw [ih (acc ++ [x]) ?_ hnodup.2]
    · simp
    · intro p hp
      rw [hasKey_append, hfree p (List.mem_cons_of_mem x hp)]
      have hpx : p.1 ≠ x.1 := by
        intro hcon
        exact hnodup.1 (hcon ▸ List.mem_map_of_mem Prod.fst hp)
      simp [hasKey, hpx]
      intro hcon
      exact hpx hcon.symm

/-- C5: a successful flush clears the snapshot from the queue (only updates
recorded during the API call remain — none when there were none); a failed
flush keeps every flushed index pending; with no concurrent updates a failed
flush restores the queue exactly. -/
theorem flush_requeue (c : DataCacheState) (during : List (ℕ × PendingUpdate))
    (hne : c.pending_updates ≠ [])
    (hnodup : (c.pending_updates.map Prod.fst).Nodup) :
    (flush_updates_to_sheet c during true).pending_updates
        = during.foldl (fun acc du => dictSet acc du.1 du.2) [] ∧
    (∀ i u, (i, u) ∈ c.pending_updates →
      hasKey (flush_updates_to_sheet c during false).pending_updates i = true) ∧
    (flush_updates_to_sheet c [] false).pending_updates = c.pending_updates := by
  refine ⟨?_, ?_, ?_⟩
  · simp only [flush_updates_to_sheet]
    rw [if_neg hne]
    simp only [if_true]
  · intro i u hmem
    simp only [flush_updates_to_sheet]
    rw [if_neg hne]
    simp only [Bool.false_eq_true, if_false]
    exact restore_of_mem _ _ i u hmem
  · simp only [flush_updates_to_sheet]
    rw [if_neg hne]
    simp only [Bool.false_eq_true, if_false, List.foldl_nil]
    rw [restore_append _ _ (by intro p _; rfl) hnodup]
    rfl

/-- Witness for `flush_requeue`: one pending update for row 1, one concurrent
update for row 2 during the failed flush. -/
theorem flush_requeue_witness :
    (flush_updates_to_sheet ⟨[], [(1, ⟨some "n", some "t"⟩)]⟩
        [(2, ⟨some "m", some "u"⟩)] true).pending_updates
      = [(2, ⟨some "m", some "u"⟩)] ∧
    (∀ i u, (i, u) ∈ [(1, (⟨some "n", some "t"⟩ : PendingUpdate))] →
      hasKey (flush_updates_to_sheet ⟨[], [(1, ⟨some "n", some "t"⟩)]⟩
        [(2, ⟨some "m", some "u"⟩)] false).pending_updates i = true) ∧
    (flush_updates_to_sheet ⟨[], [(1, ⟨some "n", some "t"⟩)]⟩ [] false
      ).pending_updates = [(1, ⟨some "n", some "t"⟩)] :=
  flush_requeue ⟨[], [(1, ⟨some "n", some "t"⟩)]⟩ [(2, ⟨some "m", some "u"⟩)]
    (by simp) (by simp)

/-- C10: for a row index not present in the loaded cache, `update_fields` is
a silent no-op — no row changed, no pending mutation recorded — and the
worker skips the index without writing anything. -/
theorem update_fields_cache_miss (c : DataCacheState) (index : ℕ)
    (note last_update : Option String) (outcome : RowOutcome) (ts : String)
    (h : List.lookup index c.data = none) :
    update_fields c index note last_update = c ∧
      worker_step c index outcome ts = c := by
  have hk : hasKey c.data index = false := by
    by_contra hc
    rw [Bool.not_eq_false] at hc
    have := hasKey_true_lookup c.data index hc
    rw [h] at this
    cases this
  constructor
  · unfold update_fields
    rw [if_neg (by rw [hk]; exact Bool.false_ne_true)]
  · unfold worker_step
    rw [h]

/-- Witness for `update_fields_cache_miss`: row 1 is not in a cache holding
only row 2. -/
theorem update_fields_cache_miss_witness :
    update_fields ⟨[(2, ⟨none, none⟩)], []⟩ 1 (some "n") (some "t")
        = ⟨[(2, ⟨none, none⟩)], []⟩ ∧
      worker_step ⟨[(2, ⟨none, none⟩)], []⟩ 1 (.success "ok") "t"
        = ⟨[(2, ⟨none, none⟩)], []⟩ :=
  update_fields_cache_miss ⟨[(2, ⟨none, none⟩)], []⟩ 1 (some "n") (some "t")
    (.success "ok") "t" rfl

theorem update_fields_lookup_self (c : DataCacheState) (index : ℕ)
    (note last_update : Option String) (h : hasKey c.data index = true) :
    List.lookup index (update_fields c index note last_update).data
      = some ⟨note, last_update⟩ := by
  unfold update_fields
  rw [if_pos h]
  exact lookup_map_update_self c.data index _ h

theorem update_fields_lookup_other (c : DataCacheState) (index j : ℕ)
    (note last_update : Option String) (hne : j ≠ index) :
    List.lookup j (update_fields c index note last_update).data
      = List.lookup j c.data := by
  unfold update_fields
  by_cases h : hasKey c.data index = true
  · rw [if_pos h]
    exact lookup_map_update_other c.data index j _ hne
  · rw [if_neg h]

/-- Rows the pricing pipeline has noted: present with a non-`none` note. -/
def hasNote (c : DataCacheState) (i : ℕ) : Prop :=
  ∃ row, List.lookup i c.data = some row ∧ row.Note ≠ none

theorem worker_step_lookup_other (c : DataCacheState) (index j : ℕ)
    (outcome : RowOutcome) (ts : String) (hne : j ≠ index) :
    List.lookup j (worker_step c index outcome ts).data
      = List.lookup j c.data := by
  unfold worker_step
  cases List.lookup index c.data with
  | none => rfl
  | some row =>
    cases outcome with
    | validationFailure msg => exact update_fields_lookup_other _ _ _ _ _ hne
    | processFailure msg => exact update_fields_lookup_other _ _ _ _ _ hne
    | success note =>
      dsimp only
      by_cases hn : note = ""
      · rw [if_pos hn]
      · rw [if_neg hn]
        exact update_fields_lookup_other _ _ _ _ _ hne

theorem worker_step_hasNote_self (c : DataCacheState) (index : ℕ)
    (outcome : RowOutcome) (ts : String)
    (hpresent : (List.lookup index c.data).isSome = true)
    (hout : ∀ note, outcome = .success note → note ≠ "") :
    hasNote (worker_step c index outcome ts) index := by
  have hk : hasKey c.data index = true := by
    by_contra hc
    rw [Bool.not_eq_true] at hc
    rw [hasKey_false_lookup c.data index hc] at hpresent
    cases hpresent
  unfold worker_step
  cases hl : List.lookup index c.data with
  | none => rw [hl] at hpresent; cases hpresent
  | some row =>
    cases outcome with
    | validationFailure msg =>
      exact ⟨_, update_fields_lookup_self c index _ _ hk, by simp⟩
    | processFailure msg =>
      exact ⟨_, update_fields_lookup_self c index _ _ hk, by simp⟩
    | success note =>
      dsimp only
      rw [if_neg (hout note rfl)]
      exact ⟨_, update_fields_lookup_self c index _ _ hk, by simp⟩

theorem worker_step_hasNote_mono (c : DataCacheState) (index j : ℕ)
    (outcome : RowOutcome) (ts : String) (h : hasNote c j) :
    hasNote (worker_step c index outcome ts) j := by
  by_cases hne : j = index
  · subst hne
    obtain ⟨row, hrow, _⟩ := h
    have hpresent : (List.lookup j c.data).isSome = true := by rw [hrow]; rfl
    have hk : hasKey c.data j = true := by
      by_contra hc
      rw [Bool.not_eq_true] at hc
      rw [hasKey_false_lookup c.data j hc] at hrow
      cases hrow
    unfold worker_step
    rw [hrow]
    cases outcome with
    | validationFailure msg =>
      exact ⟨_, update_fields_lookup_self c j _ _ hk, by simp⟩
    | processFailure msg =>
      exact ⟨_, update_fields_lookup_self c j _ _ hk, by simp⟩
    | success note =>
      dsimp only
      by_cases hn : note = ""
      · rw [if_pos hn]
        exact ⟨row, hrow, by assumption⟩
      · rw [if_neg hn]
        exact ⟨_, update_fields_lookup_self c j _ _ hk, by simp⟩
  · obtain ⟨row, hrow, hnote⟩ := h
    refine ⟨row, ?_, hnote⟩
    rw [worker_step_lookup_other c index j outcome ts hne]
    exact hrow

theorem run_batch_hasNote_mono (batch : List ℕ) (c : DataCacheState)
    (outcome : ℕ → RowOutcome) (ts : String) (j : ℕ) (h : hasNote c j) :
    hasNote (run_batch c batch outcome ts) j := by
  induction batch generalizing c with
  | nil => exact h
  | cons i is ih =>
    rw [run_batch, List.foldl_cons]
    exact ih _ (worker_step_hasNote_mono c i j (outcome i) ts h)

theorem worker_step_presence_mono (c : DataCacheState) (index j : ℕ)
    (outcome : RowOutcome) (ts : String)
    (h : (List.lookup j c.data).isSome = true) :
    (List.lookup j (worker_step c index outcome ts).data).isSome = true := by
  by_cases hne : j = index
  · subst hne
    have hk : hasKey c.data j = true := by
      by_contra hc
      rw [Bool.not_eq_true] at hc
      rw [hasKey_false_lookup c.data j hc] at h
      cases h
    unfold worker_step
    cases hl : List.lookup j c.data with
    | none => exact h
    | some row =>
      cases outcome with
      | validationFailure msg =>
        dsimp only [update_error_to_cache]
        rw [update_fields_lookup_self c j _ _ hk]
        rfl
      | processFailure msg =>
        dsimp only [update_error_to_cache]
        rw [update_fields_lookup_self c j _ _ hk]
        rfl
      | success note =>
        dsimp only
        by_cases hn : note = ""
        · rw [if_pos hn]; exact h
        · rw [if_neg hn, update_fields_lookup_self c j _ _ hk]; rfl
  · rw [worker_step_lookup_other c index j outcome ts hne]
    exact h

/-- C6 (amended): after a batch completes, every index of the batch that is
present in the loaded cache has a note recorded (success note or error
note); indices missing from the cache are skipped with nothing written. The
hypothesis on `outcome` reflects that every flow branch produces a nonempty
note message. -/
theorem batch_completeness (c : DataCacheState) (batch : List ℕ)
    (outcome : ℕ → RowOutcome) (ts : String) (i : ℕ) (hi : i ∈ batch)
    (hdata : (List.lookup i c.data).isSome = true)
    (hout : ∀ j note, outcome j = .success note → note ≠ "") :
    hasNote (run_batch c batch outcome ts) i := by
  induction batch generalizing c with
  | nil => cases hi
  | cons j js ih =>
    rw [run_batch, List.foldl_cons]
    rcases List.mem_cons.mp hi with heq | hmem
    · subst heq
      exact run_batch_hasNote_mono js _ outcome ts i
        (worker_step_hasNote_self c i (outcome i) ts hdata (hout i))
    · exact ih _ hmem (worker_step_presence_mono c j i (outcome j) ts hdata)

/-- C6 counterexample: a batch containing an index absent from the cache
completes with that index untouched — no note of any kind is recorded. -/
theorem batch_completeness_counterexample :
    run_batch ⟨[], []⟩ [1] (fun _ => .success "ok") "t" = ⟨[], []⟩ ∧
      List.lookup 1 (run_batch (⟨[], []⟩ : DataCacheState) [1]
        (fun _ => .success "ok") "t").data = none := by
  constructor
  · rfl
  · rfl

/-- Witness for `batch_completeness`: a one-row cache and its one-index
batch end with a note for that row. -/
theorem batch_completeness_witness :
    hasNote (run_batch ⟨[(1, ⟨none, none⟩)], []⟩ [1]
      (fun _ => .success "updated") "t") 1 :=
  batch_completeness ⟨[(1, ⟨none, none⟩)], []⟩ [1] (fun _ => .success "updated")
    "t" 1 (by simp) rfl
    (by intro j note h; cases h; simp)

end KinguinTL
